import Mathlib

/-!
Shallow embedding of `src/bench/leptos/src/app.rs` (a Leptos benchmark app).

Numeric model: the Rust code computes with `f32`; we embed the arithmetic
over `ℚ` (exact rationals), writing the literals `0.2` and `0.015` as
`1/5` and `3/200`.  The transcendental functions `f32::cos` / `f32::sin`
have no exact rational counterpart, so the embedding is parametrised by
two functions `cosF sinF : ℚ → ℚ`; theorems that genuinely need
trigonometric facts take them as explicit hypotheses (for instance
`cosF a ^ 2 + sinF a ^ 2 ≤ 1`).  Floating-point rounding is thereby
idealised away; every property proved below is an arithmetic-level
property of the algorithm, uniform in the interpretation of the
trigonometric primitives.
-/

namespace LeptosBench

/-- One clipping test of the spiral loop, from
`if x >= 0.0 && x <= wrapper_width - cell_size && y >= 0.0 && y <= wrapper_height - cell_size`
in `SsrPerformanceShowdown`. -/
def tileInBounds (w h ts x y : ℚ) : Prop :=
  0 ≤ x ∧ x ≤ w - ts ∧ 0 ≤ y ∧ y ≤ h - ts

instance (w h ts x y : ℚ) : Decidable (tileInBounds w h ts x y) := by
  unfold tileInBounds; infer_instance

/-- The `while radius < (wrapper_width.min(wrapper_height) / 2.0)` loop of
`SsrPerformanceShowdown`, embedded with explicit fuel (the Rust loop has no
break; each fuel unit is one iteration).  State: current `angle` and
`radius`.  Per iteration it samples
`x = w/2 + cos(angle)*radius`, `y = h/2 + sin(angle)*radius`, pushes
`(x, y)` when `tileInBounds` holds, then does `angle += 0.2` and
`radius += step * 0.015` with `step = ts` (the Rust `step = cell_size`). -/
def spiralLoop (cosF sinF : ℚ → ℚ) (w h ts : ℚ) : ℕ → ℚ → ℚ → List (ℚ × ℚ)
  | 0, _, _ => []
  | n + 1, angle, radius =>
    if radius < min w h / 2 then
      (if tileInBounds w h ts (w / 2 + cosF angle * radius) (h / 2 + sinF angle * radius)
        then [(w / 2 + cosF angle * radius, h / 2 + sinF angle * radius)]
        else [])
        ++ spiralLoop cosF sinF w h ts n (angle + 1 / 5) (radius + ts * (3 / 200))
    else []

/-- Fuel sufficient for the loop to reach its exit condition: the radius
starts at `0` and grows by exactly `ts * 0.015` per iteration, so
`⌈(min w h / 2) / (ts * 0.015)⌉` iterations reach the bound
(proved below as `spiralLoop_fuel_sufficient`). -/
def spiralFuel (w h ts : ℚ) : ℕ :=
  ⌈(min w h / 2) / (ts * (3 / 200))⌉₊

/-- The spiral tile layout generator as a function of the bounding
rectangle and the tile size: the loop of `SsrPerformanceShowdown` started
from `angle = 0`, `radius = 0` with empty output. -/
def generate (cosF sinF : ℚ → ℚ) (w h ts : ℚ) : List (ℚ × ℚ) :=
  spiralLoop cosF sinF w h ts (spiralFuel w h ts) 0 0

/-- The tile list built by the `SsrPerformanceShowdown` component itself,
with the source's hardcoded parameters
`wrapper_width = 960.0`, `wrapper_height = 720.0`, `cell_size = 10.0`. -/
def ssrPerformanceShowdownTiles (cosF sinF : ℚ → ℚ) : List (ℚ × ℚ) :=
  let wrapper_width : ℚ := 960
  let wrapper_height : ℚ := 720
  let cell_size : ℚ := 10
  generate cosF sinF wrapper_width wrapper_height cell_size

/-- Modelled from the spec: the reference algorithm of §4.1, written
independently of the code with the spec's named parameters
`angular_step` and `radial_growth_rate` and an explicit accumulator for
"append `(x, y)` to the output sequence". -/
def specRefAux (cosF sinF : ℚ → ℚ) (w h ts angularStep radialGrowth : ℚ) :
    ℕ → ℚ → ℚ → List (ℚ × ℚ) → List (ℚ × ℚ)
  | 0, _, _, acc => acc
  | n + 1, angle, radius, acc =>
    if radius < min w h / 2 then
      specRefAux cosF sinF w h ts angularStep radialGrowth n
        (angle + angularStep) (radius + ts * radialGrowth)
        (if tileInBounds w h ts (w / 2 + cosF angle * radius) (h / 2 + sinF angle * radius)
          then acc ++ [(w / 2 + cosF angle * radius, h / 2 + sinF angle * radius)]
          else acc)
    else acc

/-- Modelled from the spec: the §4.1 reference generator with the
reference constants `angular_step = 0.2`, `radial_growth_rate = 0.015`,
starting from `angle = 0`, `radius = 0` and an empty output sequence. -/
def specRefGenerate (cosF sinF : ℚ → ℚ) (w h ts : ℚ) : List (ℚ × ℚ) :=
  specRefAux cosF sinF w h ts (1 / 5) (3 / 200) (spiralFuel w h ts) 0 0 []

/-- The spiral loop instrumented to record, with each emitted tile, the
sampling radius at which it was emitted (same recursion as `spiralLoop`;
used to state the radius-monotonicity invariant). -/
def spiralLoopAnnotated (cosF sinF : ℚ → ℚ) (w h ts : ℚ) : ℕ → ℚ → ℚ → List (ℚ × ℚ × ℚ)
  | 0, _, _ => []
  | n + 1, angle, radius =>
    if radius < min w h / 2 then
      (if tileInBounds w h ts (w / 2 + cosF angle * radius) (h / 2 + sinF angle * radius)
        then [(radius, w / 2 + cosF angle * radius, h / 2 + sinF angle * radius)]
        else [])
        ++ spiralLoopAnnotated cosF sinF w h ts n (angle + 1 / 5) (radius + ts * (3 / 200))
    else []

/-- The `items` list of the `SsrPage` component:
`let items: Vec<u32> = (0..50).map(|_| 1).collect();`. -/
def ssrItems : List ℕ :=
  (List.range 50).map fun _ => 1

/-- The rows rendered by `SsrPage`: one `<div>"SSR " {v} "-" {i}</div>`
per enumerated item, modelled as the rendered text of each row. -/
def ssrRows : List String :=
  ssrItems.enum.map fun iv => "SSR " ++ toString iv.2 ++ "-" ++ toString iv.1

/-- Two's-complement wrap-around of Rust's `i32` (release-profile
overflow semantics for `+=`). -/
def i32wrap (z : ℤ) : ℤ :=
  (z + 2 ^ 31) % 2 ^ 32 - 2 ^ 31

/-- The `HomePage` counter after `n` invocations of the click handler:
`RwSignal::new(0)` then `*count.write() += 1` per click, on `i32`. -/
def homeCount : ℕ → ℤ
  | 0 => 0
  | n + 1 => i32wrap (homeCount n + 1)

/-- Constant interpretation of `cos` used in concrete witnesses. -/
def cosW : ℚ → ℚ := fun _ => 3 / 5

/-- Constant interpretation of `sin` used in concrete witnesses. -/
def sinW : ℚ → ℚ := fun _ => 4 / 5

end LeptosBench

namespace LeptosBench

theorem spiralLoop_zero (cosF sinF : ℚ → ℚ) (w h ts angle radius : ℚ) :
    spiralLoop cosF sinF w h ts 0 angle radius = [] := rfl

theorem spiralLoop_succ (cosF sinF : ℚ → ℚ) (w h ts : ℚ) (n : ℕ) (angle radius : ℚ) :
    spiralLoop cosF sinF w h ts (n + 1) angle radius =
      if radius < min w h / 2 then
        (if tileInBounds w h ts (w / 2 + cosF angle * radius) (h / 2 + sinF angle * radius)
          then [(w / 2 + cosF angle * radius, h / 2 + sinF angle * radius)]
          else [])
          ++ spiralLoop cosF sinF w h ts n (angle + 1 / 5) (radius + ts * (3 / 200))
      else [] := rfl

theorem specRefAux_succ (cosF sinF : ℚ → ℚ) (w h ts aStep rGrowth : ℚ) (n : ℕ)
    (angle radius : ℚ) (acc : List (ℚ × ℚ)) :
    specRefAux cosF sinF w h ts aStep rGrowth (n + 1) angle radius acc =
      if radius < min w h / 2 then
        specRefAux cosF sinF w h ts aStep rGrowth n
          (angle + aStep) (radius + ts * rGrowth)
          (if tileInBounds w h ts (w / 2 + cosF angle * radius) (h / 2 + sinF angle * radius)
            then acc ++ [(w / 2 + cosF angle * radius, h / 2 + sinF angle * radius)]
            else acc)
      else acc := rfl

theorem specRefAux_eq_spiralLoop (cosF sinF : ℚ → ℚ) (w h ts : ℚ) :
    ∀ (n : ℕ) (angle radius : ℚ) (acc : List (ℚ × ℚ)),
      specRefAux cosF sinF w h ts (1 / 5) (3 / 200) n angle radius acc =
        acc ++ spiralLoop cosF sinF w h ts n angle radius := by
  intro n
  induction n with
  | zero => intro angle radius acc; simp [specRefAux, spiralLoop]
  | succ n ih =>
    intro angle radius acc
    rw [specRefAux_succ, spiralLoop_succ]
    by_cases hb : radius < min w h / 2
    · rw [if_pos hb, if_pos hb, ih]
      by_cases hg :
        tileInBounds w h ts (w / 2 + cosF angle * radius) (h / 2 + sinF angle * radius)
      · rw [if_pos hg, if_pos hg, List.append_assoc]
      · rw [if_neg hg, if_neg hg, List.nil_append]
    · rw [if_neg hb, if_neg hb, List.append_nil]

theorem spiralLoop_mem_inBounds (cosF sinF : ℚ → ℚ) (w h ts : ℚ) :
    ∀ (n : ℕ) (angle radius : ℚ) (p : ℚ × ℚ),
      p ∈ spiralLoop cosF sinF w h ts n angle radius → tileInBounds w h ts p.1 p.2 := by
  intro n
  induction n with
  | zero => intro angle radius p hp; simp [spiralLoop] at hp
  | succ n ih =>
    intro angle radius p hp
    rw [spiralLoop_succ] at hp
    by_cases hb : radius < min w h / 2
    · rw [if_pos hb, List.mem_append] at hp
      rcases hp with hp | hp
      · by_cases hg :
          tileInBounds w h ts (w / 2 + cosF angle * radius) (h / 2 + sinF angle * radius)
        · rw [if_pos hg, List.mem_singleton] at hp
          subst hp
          exact hg
        · rw [if_neg hg] at hp
          simp at hp
      · exact ih _ _ _ hp
    · rw [if_neg hb] at hp
      simp at hp

end LeptosBench

namespace LeptosBench

theorem spiralLoop_stable (cosF sinF : ℚ → ℚ) (w h ts : ℚ) :
    ∀ (n m : ℕ) (angle radius : ℚ), n ≤ m →
      min w h / 2 ≤ radius + n * (ts * (3 / 200)) →
      spiralLoop cosF sinF w h ts m angle radius =
        spiralLoop cosF sinF w h ts n angle radius := by
  intro n
  induction n with
  | zero =>
    intro m angle radius _ hstop
    rw [Nat.cast_zero, zero_mul, add_zero] at hstop
    cases m with
    | zero => rfl
    | succ m => rw [spiralLoop_succ, if_neg (not_lt.2 hstop), spiralLoop_zero]
  | succ n ih =>
    intro m angle radius hnm hstop
    cases m with
    | zero => exact absurd hnm (by omega)
    | succ m =>
      rw [spiralLoop_succ, spiralLoop_succ]
      by_cases hb : radius < min w h / 2
      · rw [if_pos hb, if_pos hb]
        have hstop' : min w h / 2 ≤
            radius + ts * (3 / 200) + n * (ts * (3 / 200)) := by
          rw [Nat.cast_succ] at hstop
          nlinarith [hstop]
        rw [ih m (angle + 1 / 5) (radius + ts * (3 / 200)) (by omega) hstop']
      · rw [if_neg hb, if_neg hb]

theorem spiralLoop_empty_of_thin (cosF sinF : ℚ → ℚ) (w h ts : ℚ)
    (hthin : w - ts < 0 ∨ h - ts < 0) :
    ∀ (n : ℕ) (angle radius : ℚ), spiralLoop cosF sinF w h ts n angle radius = [] := by
  intro n
  induction n with
  | zero => intro angle radius; rfl
  | succ n ih =>
    intro angle radius
    rw [spiralLoop_succ]
    by_cases hb : radius < min w h / 2
    · rw [if_pos hb]
      have hg : ¬ tileInBounds w h ts (w / 2 + cosF angle * radius)
          (h / 2 + sinF angle * radius) := by
        rintro ⟨hx0, hxw, hy0, hyh⟩
        rcases hthin with hw | hh
        · exact absurd (le_trans hx0 hxw) (not_le.2 hw)
        · exact absurd (le_trans hy0 hyh) (not_le.2 hh)
      rw [if_neg hg, List.nil_append, ih]
    · rw [if_neg hb]

theorem spiralLoopAnnotated_succ (cosF sinF : ℚ → ℚ) (w h ts : ℚ) (n : ℕ)
    (angle radius : ℚ) :
    spiralLoopAnnotated cosF sinF w h ts (n + 1) angle radius =
      if radius < min w h / 2 then
        (if tileInBounds w h ts (w / 2 + cosF angle * radius) (h / 2 + sinF angle * radius)
          then [(radius, w / 2 + cosF angle * radius, h / 2 + sinF angle * radius)]
          else [])
          ++ spiralLoopAnnotated cosF sinF w h ts n (angle + 1 / 5) (radius + ts * (3 / 200))
      else [] := rfl

theorem spiralLoopAnnotated_erase (cosF sinF : ℚ → ℚ) (w h ts : ℚ) :
    ∀ (n : ℕ) (angle radius : ℚ),
      (spiralLoopAnnotated cosF sinF w h ts n angle radius).map (fun t => t.2) =
        spiralLoop cosF sinF w h ts n angle radius := by
  intro n
  induction n with
  | zero => intro angle radius; rfl
  | succ n ih =>
    intro angle radius
    rw [spiralLoopAnnotated_succ, spiralLoop_succ]
    by_cases hb : radius < min w h / 2
    · rw [if_pos hb, if_pos hb, List.map_append, ih]
      by_cases hg :
        tileInBounds w h ts (w / 2 + cosF angle * radius) (h / 2 + sinF angle * radius)
      · rw [if_pos hg, if_pos hg]; rfl
      · rw [if_neg hg, if_neg hg]; rfl
    · rw [if_neg hb, if_neg hb]; rfl

theorem spiralLoopAnnotated_radii (cosF sinF : ℚ → ℚ) (w h ts : ℚ)
    (hd : 0 ≤ ts * (3 / 200)) :
    ∀ (n : ℕ) (angle radius : ℚ),
      (∀ t ∈ spiralLoopAnnotated cosF sinF w h ts n angle radius, radius ≤ t.1) ∧
        List.Pairwise (fun a b : ℚ × ℚ × ℚ => a.1 ≤ b.1)
          (spiralLoopAnnotated cosF sinF w h ts n angle radius) := by
  intro n
  induction n with
  | zero =>
    intro angle radius
    refine ⟨?_, List.Pairwise.nil⟩
    intro t ht
    simp [spiralLoopAnnotated] at ht
  | succ n ih =>
    intro angle radius
    rw [spiralLoopAnnotated_succ]
    by_cases hb : radius < min w h / 2
    · rw [if_pos hb]
      obtain ⟨ihLow, ihPair⟩ := ih (angle + 1 / 5) (radius + ts * (3 / 200))
      have htail : ∀ t ∈ spiralLoopAnnotated cosF sinF w h ts n (angle + 1 / 5)
          (radius + ts * (3 / 200)), radius ≤ t.1 := by
        intro t ht
        calc radius ≤ radius + ts * (3 / 200) := by linarith
          _ ≤ t.1 := ihLow t ht
      by_cases hg :
        tileInBounds w h ts (w / 2 + cosF angle * radius) (h / 2 + sinF angle * radius)
      · rw [if_pos hg, List.singleton_append]
        constructor
        · intro t ht
          rcases List.mem_cons.1 ht with hh | ht'
          · rw [hh]
          · exact htail t ht'
        · exact List.pairwise_cons.2 ⟨htail, ihPair⟩
      · rw [if_neg hg, List.nil_append]
        exact ⟨htail, ihPair⟩
    · rw [if_neg hb]
      exact ⟨fun t ht => absurd ht (by simp), List.Pairwise.nil⟩

theorem spiralLoop_mem_dist (cosF sinF : ℚ → ℚ) (w h ts : ℚ) (hts : 0 ≤ ts)
    (htrig : ∀ a, cosF a ^ 2 + sinF a ^ 2 ≤ 1) :
    ∀ (n : ℕ) (angle radius : ℚ), 0 ≤ radius →
      ∀ p ∈ spiralLoop cosF sinF w h ts n angle radius,
        (p.1 - w / 2) ^ 2 + (p.2 - h / 2) ^ 2 < (min w h / 2) ^ 2 := by
  intro n
  induction n with
  | zero => intro angle radius _ p hp; simp [spiralLoop] at hp
  | succ n ih =>
    intro angle radius h0 p hp
    rw [spiralLoop_succ] at hp
    by_cases hb : radius < min w h / 2
    · rw [if_pos hb, List.mem_append] at hp
      rcases hp with hp | hp
      · by_cases hg :
          tileInBounds w h ts (w / 2 + cosF angle * radius) (h / 2 + sinF angle * radius)
        · rw [if_pos hg, List.mem_singleton] at hp
          subst hp
          have hc := htrig angle
          have h1 : (cosF angle * radius) ^ 2 + (sinF angle * radius) ^ 2 ≤ radius ^ 2 := by
            nlinarith [sq_nonneg radius]
          have h2 : radius ^ 2 < (min w h / 2) ^ 2 := by
            nlinarith
          have hx : w / 2 + cosF angle * radius - w / 2 = cosF angle * radius := by ring
          have hy : h / 2 + sinF angle * radius - h / 2 = sinF angle * radius := by ring
          calc ((w / 2 + cosF angle * radius, h / 2 + sinF angle * radius).1 - w / 2) ^ 2 +
                ((w / 2 + cosF angle * radius, h / 2 + sinF angle * radius).2 - h / 2) ^ 2
              = (cosF angle * radius) ^ 2 + (sinF angle * radius) ^ 2 := by
                rw [show ((w / 2 + cosF angle * radius, h / 2 + sinF angle * radius) :
                  ℚ × ℚ).1 = w / 2 + cosF angle * radius from rfl]
                rw [show ((w / 2 + cosF angle * radius, h / 2 + sinF angle * radius) :
                  ℚ × ℚ).2 = h / 2 + sinF angle * radius from rfl]
                rw [hx, hy]
            _ ≤ radius ^ 2 := h1
            _ < (min w h / 2) ^ 2 := h2
        · rw [if_neg hg] at hp
          simp at hp
      · exact ih (angle + 1 / 5) (radius + ts * (3 / 200)) (by linarith) p hp
    · rw [if_neg hb] at hp
      simp at hp

end LeptosBench

namespace LeptosBench

theorem spiralLoop_fuel_sufficient (w h ts : ℚ) (hts : 0 < ts) :
    min w h / 2 ≤ 0 + (spiralFuel w h ts : ℚ) * (ts * (3 / 200)) := by
  have hd : 0 < ts * (3 / 200) := by nlinarith
  have hle : (min w h / 2) / (ts * (3 / 200)) ≤ (spiralFuel w h ts : ℚ) :=
    Nat.le_ceil _
  rw [zero_add]
  calc min w h / 2
      = (min w h / 2) / (ts * (3 / 200)) * (ts * (3 / 200)) :=
        (div_mul_cancel₀ _ (ne_of_gt hd)).symm
    _ ≤ (spiralFuel w h ts : ℚ) * (ts * (3 / 200)) :=
        mul_le_mul_of_nonneg_right hle (le_of_lt hd)

theorem generate_ne_nil_of_center_inBounds (cosF sinF : ℚ → ℚ) (w h ts : ℚ)
    (hfuel : spiralFuel w h ts ≠ 0) (hb : (0 : ℚ) < min w h / 2)
    (hg : tileInBounds w h ts (w / 2) (h / 2)) :
    generate cosF sinF w h ts ≠ [] := by
  unfold generate
  obtain ⟨m, hm⟩ : ∃ m, spiralFuel w h ts = m + 1 :=
    ⟨spiralFuel w h ts - 1, by omega⟩
  rw [hm, spiralLoop_succ, if_pos hb]
  have hx : w / 2 + cosF 0 * 0 = w / 2 := by ring
  have hy : h / 2 + sinF 0 * 0 = h / 2 := by ring
  rw [hx, hy, if_pos hg, List.singleton_append]
  exact List.cons_ne_nil _ _

theorem cosW_sinW_pyth : ∀ a : ℚ, cosW a ^ 2 + sinW a ^ 2 ≤ 1 := by
  intro a
  norm_num [cosW, sinW]

theorem i32wrap_add_one (z : ℤ) : i32wrap (i32wrap z + 1) = i32wrap (z + 1) := by
  unfold i32wrap
  omega

theorem i32wrap_of_small (z : ℤ) (h0 : 0 ≤ z) (h1 : z < 2 ^ 31) : i32wrap z = z := by
  unfold i32wrap
  omega

theorem homeCount_eq_wrap : ∀ n : ℕ, homeCount n = i32wrap (n : ℤ) := by
  intro n
  induction n with
  | zero =>
    show (0 : ℤ) = i32wrap 0
    unfold i32wrap
    decide
  | succ n ih =>
    show i32wrap (homeCount n + 1) = i32wrap ((n : ℤ) + 1)
    rw [ih, i32wrap_add_one]

end LeptosBench

namespace LeptosBench

/-- Claim C1: the embedded code loop (`generate`, and its hardcoded
instantiation `ssrPerformanceShowdownTiles`) produces exactly the same
output sequence as the spec's §4.1 reference algorithm
(`specRefGenerate`) for every input, uniformly in the interpretation of
`cos` and `sin`; in particular at the code's parameters
width = 960, height = 720, tile_size = 10. -/
theorem spiral_refines_spec_reference :
    (∀ (cosF sinF : ℚ → ℚ) (w h ts : ℚ),
        generate cosF sinF w h ts = specRefGenerate cosF sinF w h ts) ∧
      ∀ cosF sinF : ℚ → ℚ,
        ssrPerformanceShowdownTiles cosF sinF = specRefGenerate cosF sinF 960 720 10 := by
  constructor
  · intro cosF sinF w h ts
    unfold generate specRefGenerate
    rw [specRefAux_eq_spiralLoop, List.nil_append]
  · intro cosF sinF
    show generate cosF sinF 960 720 10 = specRefGenerate cosF sinF 960 720 10
    unfold generate specRefGenerate
    rw [specRefAux_eq_spiralLoop, List.nil_append]

/-- Claim C2: for positive width, height and tile_size, every pair
`(x, y)` emitted by the spiral tile layout generator satisfies
`0 ≤ x ≤ width - tile_size` and `0 ≤ y ≤ height - tile_size`. -/
theorem spiral_output_within_bounds (cosF sinF : ℚ → ℚ) (w h ts : ℚ)
    (hw : 0 < w) (hh : 0 < h) (hts : 0 < ts) :
    ∀ p ∈ generate cosF sinF w h ts,
      0 ≤ p.1 ∧ p.1 ≤ w - ts ∧ 0 ≤ p.2 ∧ p.2 ≤ h - ts := by
  intro p hp
  exact spiralLoop_mem_inBounds cosF sinF w h ts (spiralFuel w h ts) 0 0 p hp

/-- Witness for C2 at the code's parameters. -/
theorem spiral_output_within_bounds_witness :
    (0 : ℚ) < 960 ∧ (0 : ℚ) < 720 ∧ (0 : ℚ) < 10 ∧
      ∀ p ∈ generate cosW sinW 960 720 10,
        0 ≤ p.1 ∧ p.1 ≤ 960 - 10 ∧ 0 ≤ p.2 ∧ p.2 ≤ 720 - 10 :=
  ⟨by decide, by decide, by decide,
    spiral_output_within_bounds cosW sinW 960 720 10 (by decide) (by decide) (by decide)⟩

/-- Claim C3 counterexample: at width = height = 20 and
tile_size = 10 = min(width, height) / 2 the claim's hypothesis holds,
yet the generator's first sample (taken at radius 0, hence at the
center `(10, 10)` for any interpretation of `cos`/`sin`) passes the
clipping test `0 ≤ 10 ≤ 20 - 10` with equality, so the output sequence
is not empty. -/
theorem spiral_nonempty_at_tile_eq_half_min :
    (0 : ℚ) < 20 ∧ (0 : ℚ) < 10 ∧ min (20 : ℚ) 20 / 2 ≤ 10 ∧
      generate cosW sinW 20 20 10 ≠ [] := by
  refine ⟨by norm_num, by norm_num, by norm_num, ?_⟩
  apply generate_ne_nil_of_center_inBounds
  · exact Nat.pos_iff_ne_zero.mp (Nat.ceil_pos.mpr (by norm_num))
  · norm_num
  · norm_num [tileInBounds]

/-- Claim C3 amended: for positive width, height and tile_size, the
output sequence is empty when `tile_size > min(width, height)` (the
clipping window is then empty on the narrow axis); the spec's threshold
`min(width, height) / 2` is too low, as the counterexample shows. -/
theorem spiral_empty_of_tile_gt_min (cosF sinF : ℚ → ℚ) (w h ts : ℚ)
    (hw : 0 < w) (hh : 0 < h) (hts : 0 < ts) (hgt : min w h < ts) :
    generate cosF sinF w h ts = [] := by
  apply spiralLoop_empty_of_thin
  rcases le_total w h with hwh | hwh
  · left
    rw [min_eq_left hwh] at hgt
    linarith
  · right
    rw [min_eq_right hwh] at hgt
    linarith

/-- Witness for the amended C3 at width = height = 20, tile_size = 25. -/
theorem spiral_empty_of_tile_gt_min_witness :
    ((0 : ℚ) < 20 ∧ (0 : ℚ) < 25 ∧ min (20 : ℚ) 20 < 25) ∧
      generate cosW sinW 20 20 25 = [] :=
  ⟨⟨by decide, by decide, by decide⟩,
    spiral_empty_of_tile_gt_min cosW sinW 20 20 25 (by decide) (by decide) (by decide)
      (by decide)⟩

/-- Claim C4: for positive inputs the spiral loop terminates: running it
with any fuel at least `⌈(min w h / 2) / (ts * 0.015)⌉` iterations gives
the same output as `generate` (which uses exactly that many), i.e. the
loop has already reached its exit condition within that many
iterations. -/
theorem spiral_loop_terminates_within_ceil_bound (cosF sinF : ℚ → ℚ) (w h ts : ℚ)
    (hw : 0 < w) (hh : 0 < h) (hts : 0 < ts) :
    ∀ m : ℕ, spiralFuel w h ts ≤ m →
      spiralLoop cosF sinF w h ts m 0 0 = generate cosF sinF w h ts := by
  intro m hm
  unfold generate
  exact spiralLoop_stable cosF sinF w h ts (spiralFuel w h ts) m 0 0 hm
    (spiralLoop_fuel_sufficient w h ts hts)

/-- Witness for C4 at the code's parameters with one extra fuel unit. -/
theorem spiral_loop_terminates_within_ceil_bound_witness :
    ((0 : ℚ) < 960 ∧ (0 : ℚ) < 720 ∧ (0 : ℚ) < 10 ∧
        spiralFuel 960 720 10 ≤ spiralFuel 960 720 10 + 1) ∧
      spiralLoop cosW sinW 960 720 10 (spiralFuel 960 720 10 + 1) 0 0 =
        generate cosW sinW 960 720 10 :=
  ⟨⟨by decide, by decide, by decide, Nat.le_succ _⟩,
    spiral_loop_terminates_within_ceil_bound cosW sinW 960 720 10 (by decide) (by decide)
      (by decide) (spiralFuel 960 720 10 + 1) (Nat.le_succ _)⟩

/-- Claim C5: the generator is a pure, stateless function of its inputs:
any two invocations with identical width, height and tile_size (and the
same trigonometric primitives) produce identical output sequences,
element for element; the embedding carries no state between calls. -/
theorem spiral_deterministic (cosF sinF cosF' sinF' : ℚ → ℚ) (w h ts w' h' ts' : ℚ)
    (hc : cosF = cosF') (hs : sinF = sinF') (hw : w = w') (hh : h = h') (hts : ts = ts') :
    generate cosF sinF w h ts = generate cosF' sinF' w' h' ts' := by
  rw [hc, hs, hw, hh, hts]

/-- Witness for C5: two invocations at the code's parameters agree. -/
theorem spiral_deterministic_witness :
    generate cosW sinW 960 720 10 = generate cosW sinW 960 720 10 :=
  spiral_deterministic cosW sinW cosW sinW 960 720 10 960 720 10 rfl rfl rfl rfl rfl

/-- Claim C6: for positive tile_size the per-iteration radius increment
`ts * 0.015` is strictly positive, the instrumented loop erases to the
generator's output (same emission order), and the sampling radii
attached to successive output entries are non-decreasing. -/
theorem spiral_radius_monotone (cosF sinF : ℚ → ℚ) (w h ts : ℚ) (hts : 0 < ts) :
    0 < ts * (3 / 200) ∧
      (spiralLoopAnnotated cosF sinF w h ts (spiralFuel w h ts) 0 0).map (fun t => t.2) =
        generate cosF sinF w h ts ∧
      List.Pairwise (fun a b : ℚ × ℚ × ℚ => a.1 ≤ b.1)
        (spiralLoopAnnotated cosF sinF w h ts (spiralFuel w h ts) 0 0) := by
  refine ⟨by nlinarith, ?_, ?_⟩
  · exact spiralLoopAnnotated_erase cosF sinF w h ts (spiralFuel w h ts) 0 0
  · exact (spiralLoopAnnotated_radii cosF sinF w h ts (by nlinarith)
      (spiralFuel w h ts) 0 0).2

/-- Witness for C6 at the code's parameters. -/
theorem spiral_radius_monotone_witness :
    (0 : ℚ) < 10 ∧
      (0 < (10 : ℚ) * (3 / 200) ∧
        (spiralLoopAnnotated cosW sinW 960 720 10 (spiralFuel 960 720 10) 0 0).map
            (fun t => t.2) =
          generate cosW sinW 960 720 10 ∧
        List.Pairwise (fun a b : ℚ × ℚ × ℚ => a.1 ≤ b.1)
          (spiralLoopAnnotated cosW sinW 960 720 10 (spiralFuel 960 720 10) 0 0)) :=
  ⟨by decide, spiral_radius_monotone cosW sinW 960 720 10 (by decide)⟩

/-- Claim C7: at the code's parameters width = 960, height = 720,
tile_size = 10 the generator emits a non-empty sequence (the first
sample, at radius 0, is the center `(480, 360)`, inside the clipping
window), and re-running with the same inputs reproduces it exactly. -/
theorem spiral_reference_params_nonempty :
    ∀ cosF sinF : ℚ → ℚ,
      ssrPerformanceShowdownTiles cosF sinF ≠ [] ∧
        ssrPerformanceShowdownTiles cosF sinF = ssrPerformanceShowdownTiles cosF sinF := by
  intro cosF sinF
  refine ⟨?_, rfl⟩
  show generate cosF sinF 960 720 10 ≠ []
  apply generate_ne_nil_of_center_inBounds
  · exact Nat.pos_iff_ne_zero.mp (Nat.ceil_pos.mpr (by norm_num))
  · norm_num
  · norm_num [tileInBounds]

/-- Claim C8: the SSR stress page builds an items list of length 50 and
renders one row per item, so exactly 50 rows. -/
theorem ssr_page_fifty_rows :
    ssrItems.length = 50 ∧ ssrRows.length = ssrItems.length ∧ ssrRows.length = 50 := by
  refine ⟨?_, ?_, ?_⟩ <;> simp [ssrItems, ssrRows]

/-- Claim C9: under the Pythagorean bound on the trigonometric
primitives, every emitted position lies at squared distance strictly
less than `(min(width, height) / 2)²` from the rectangle's center. -/
theorem spiral_output_within_radius_of_center (cosF sinF : ℚ → ℚ) (w h ts : ℚ)
    (hw : 0 < w) (hh : 0 < h) (hts : 0 < ts)
    (htrig : ∀ a, cosF a ^ 2 + sinF a ^ 2 ≤ 1) :
    ∀ p ∈ generate cosF sinF w h ts,
      (p.1 - w / 2) ^ 2 + (p.2 - h / 2) ^ 2 < (min w h / 2) ^ 2 := by
  intro p hp
  exact spiralLoop_mem_dist cosF sinF w h ts (le_of_lt hts) htrig
    (spiralFuel w h ts) 0 0 le_rfl p hp

/-- Witness for C9 at the code's parameters with the exact Pythagorean
pair `cos = 3/5`, `sin = 4/5`. -/
theorem spiral_output_within_radius_of_center_witness :
    ((0 : ℚ) < 960 ∧ (0 : ℚ) < 720 ∧ (0 : ℚ) < 10 ∧
        ∀ a : ℚ, cosW a ^ 2 + sinW a ^ 2 ≤ 1) ∧
      ∀ p ∈ generate cosW sinW 960 720 10,
        (p.1 - 960 / 2) ^ 2 + (p.2 - 720 / 2) ^ 2 < (min (960 : ℚ) 720 / 2) ^ 2 :=
  ⟨⟨by decide, by decide, by decide, cosW_sinW_pyth⟩,
    spiral_output_within_radius_of_center cosW sinW 960 720 10 (by decide) (by decide)
      (by decide) cosW_sinW_pyth⟩

/-- Claim C10 counterexample: on `i32` the click handler's `+= 1` wraps:
after `2^31` clicks the counter holds `-2^31`, not `2^31`, so "after n
clicks its value is n" fails at n = 2^31. -/
theorem home_counter_wraps_at_two_pow_31 :
    homeCount (2 ^ 31) = -(2 ^ 31) ∧ homeCount (2 ^ 31) ≠ 2 ^ 31 := by
  have hc : homeCount (2 ^ 31) = i32wrap ((2 ^ 31 : ℕ) : ℤ) := homeCount_eq_wrap (2 ^ 31)
  have hcast : (((2 : ℕ) ^ 31 : ℕ) : ℤ) = 2 ^ 31 := by push_cast [Nat.cast_pow]
  rw [hc, hcast]
  unfold i32wrap
  constructor
  · decide
  · decide

/-- Claim C10 amended: the counter starts at exactly 0 and each click
applies `i32` wrapping increment, so its value after n clicks is the
two's-complement wrap of n; in particular it equals n for every
n < 2^31. -/
theorem home_counter_value :
    homeCount 0 = 0 ∧ (∀ n : ℕ, homeCount (n + 1) = i32wrap (homeCount n + 1)) ∧
      ∀ n : ℕ, (n : ℤ) < 2 ^ 31 → homeCount n = n := by
  refine ⟨rfl, fun n => rfl, ?_⟩
  intro n hn
  rw [homeCount_eq_wrap n]
  exact i32wrap_of_small _ (Int.natCast_nonneg n) hn

/-- Witness for the amended C10 at n = 41 clicks. -/
theorem home_counter_value_witness :
    ((41 : ℤ) < 2 ^ 31) ∧ homeCount 41 = 41 :=
  ⟨by decide, home_counter_value.2.2 41 (by decide)⟩

end LeptosBench
